import Mathlib

/-!
Shallow embedding of the hs-wallet transaction builder:
the name rule engine (`verifyString`, `createBlind`, covenant types),
the transaction codec and hash engine, the signature-hash protocol and
the wallet transaction builders (`openName`, `bidName`, `generateNonce`,
`hashName`, `generateTransaction`).

Bytes are natural numbers 0..255; JavaScript strings are lists of their
UTF-16 code units (each < 2^16).  Cryptographic digests (BLAKE2b-256,
SHA3-256), secp256k1 signing and hierarchical key derivation are external
collaborators and appear as function parameters, so every theorem below
holds for an arbitrary choice of these primitives.
-/

set_option maxRecDepth 100000

namespace HsWallet

/-- A JavaScript string: its list of UTF-16 code units. -/
abbrev JStr := List Nat

/-- A byte string. -/
abbrev Bytes := List Nat

/-! ### Name rule engine (rule.js) -/

/-- The reserved-name blacklist, as code-unit lists:
`example`, `invalid`, `local`, `localhost`, `test`. -/
def blacklist : List (List Nat) :=
  [ [101, 120, 97, 109, 112, 108, 101]
  , [105, 110, 118, 97, 108, 105, 100]
  , [108, 111, 99, 97, 108]
  , [108, 111, 99, 97, 108, 104, 111, 115, 116]
  , [116, 101, 115, 116] ]

/-- Maximum name size in bytes. -/
def MAX_NAME_SIZE : Nat := 63

/-- The 128-entry character-class table from rule.js:
0 = non-printable, 1 = digit, 2 = uppercase, 3 = lowercase, 4 = `-` or `_`. -/
def CHARSET : List Nat :=
  [ 0, 0, 0, 0, 0, 0, 0, 0, 0, 0, 0, 0, 0, 0, 0, 0
  , 0, 0, 0, 0, 0, 0, 0, 0, 0, 0, 0, 0, 0, 0, 0, 0
  , 0, 0, 0, 0, 0, 0, 0, 0, 0, 0, 0, 0, 0, 4, 0, 0
  , 1, 1, 1, 1, 1, 1, 1, 1, 1, 1, 0, 0, 0, 0, 0, 0
  , 0, 2, 2, 2, 2, 2, 2, 2, 2, 2, 2, 2, 2, 2, 2, 2
  , 2, 2, 2, 2, 2, 2, 2, 2, 2, 2, 2, 0, 0, 0, 0, 4
  , 0, 3, 3, 3, 3, 3, 3, 3, 3, 3, 3, 3, 3, 3, 3, 3
  , 3, 3, 3, 3, 3, 3, 3, 3, 3, 3, 3, 0, 0, 0, 0, 0 ]

/-- One iteration of the character loop of `verifyString` for the character
`ch` at position `i` of a string of length `len`: `true` means the loop
continues, `false` means `verifyString` returns `false` here.  A code unit
with any of bits 7..15 set is rejected by the `ch & 0xff80` test; otherwise
the character class decides (class 1 and 3 pass; class 4 passes except at
the first or last position; class 0 and 2 fail; an index beyond the table,
impossible for a real UTF-16 unit that passed the mask, leaves the JS
`switch` without a matching case, so the loop continues). -/
def charStep (len i ch : Nat) : Bool :=
  if ch &&& 0xff80 ≠ 0 then false
  else
    match CHARSET[ch]? with
    | none => true
    | some tv =>
      if tv = 1 ∨ tv = 3 then true
      else if tv = 4 then decide (¬(i = 0 ∨ i = len - 1)) else false

/-- The character loop of `verifyString`, starting at position `i`. -/
def checkGo (len : Nat) : Nat → List Nat → Bool
  | _, [] => true
  | i, ch :: rest => charStep len i ch && checkGo len (i + 1) rest

/-- rule.js `verifyString`: length in [1,63], every character passes the
class check, and the whole string is not blacklisted. -/
def verifyString (s : JStr) : Bool :=
  if s.length = 0 then false
  else if s.length > MAX_NAME_SIZE then false
  else if checkGo s.length 0 s = false then false
  else if blacklist.contains s then false
  else true

-- Covenant type tags from rule.js.
namespace types

def NONE : Nat := 0
def CLAIM : Nat := 1
def OPEN : Nat := 2
def BID : Nat := 3
def REVEAL : Nat := 4
def REDEEM : Nat := 5
def REGISTER : Nat := 6
def UPDATE : Nat := 7
def RENEW : Nat := 8
def TRANSFER : Nat := 9
def FINALIZE : Nat := 10
def REVOKE : Nat := 11

end types

/-! ### Little-endian integer encodings (bufio) -/

/-- 16-bit little-endian encoding. -/
def u16LE (n : Nat) : Bytes := [n % 256, n / 256 % 256]

/-- 32-bit little-endian encoding. -/
def u32LE (n : Nat) : Bytes :=
  [n % 256, n / 256 % 256, n / 65536 % 256, n / 16777216 % 256]

/-- 64-bit little-endian encoding. -/
def u64LE (n : Nat) : Bytes := u32LE (n % 4294967296) ++ u32LE (n / 4294967296)

/-- rule.js `createBlind`: BLAKE2b-256 over the 8-byte little-endian
encoding of `value` followed by the nonce bytes. -/
def createBlind (blake : Bytes → Bytes) (value : Nat) (nonce : Bytes) : Bytes :=
  blake (u64LE value ++ nonce)

/-! ### Varints (bufio encoding) -/

/-- bufio `sizeVarint`: byte size of the Bitcoin-style varint for `n`. -/
def sizeVarint (n : Nat) : Nat :=
  if n < 0xfd then 1
  else if n ≤ 0xffff then 3
  else if n ≤ 0xffffffff then 5
  else 9

/-- bufio `writeVarint`: Bitcoin-style varint encoding of `n`. -/
def putVarint (n : Nat) : Bytes :=
  if n < 0xfd then [n]
  else if n ≤ 0xffff then 0xfd :: u16LE n
  else if n ≤ 0xffffffff then 0xfe :: u32LE n
  else 0xff :: u64LE n

/-- `writeVarBytes`: varint length prefix followed by the bytes. -/
def varBytes (b : Bytes) : Bytes := putVarint b.length ++ b

/-! ### Transaction data model (tx.js and its value objects)

The Outpoint/Input/Output/Covenant/Witness value objects and the
address/script codecs are external collaborators of tx.js; their wire
formats below are modelled from the spec (base region per input: 32-byte
previous-transaction hash, uint32 index, uint32 sequence — 40 bytes;
witness region per input: varint item count then var-bytes items; output:
uint64 value, address bytes, covenant type + var-bytes items). -/

/-- An outpoint: previous transaction hash (32 bytes) plus output index. -/
structure Outpoint where
  hash : Bytes
  index : Nat
  deriving Repr, DecidableEq

/-- An address, reduced to its 20-byte hash and its serialized output form
(the address codec itself is an external collaborator). -/
structure Addr where
  hash : Bytes
  enc : Bytes
  deriving Repr, DecidableEq

/-- A covenant: type tag plus ordered opaque data items. -/
structure Covenant where
  type : Nat
  items : List Bytes
  deriving Repr, DecidableEq

/-- A transaction output: value, address, covenant. -/
structure Output where
  value : Int
  address : Addr
  covenant : Covenant
  deriving Repr, DecidableEq

/-- A transaction input: outpoint, sequence number, witness items. -/
structure Input where
  prevout : Outpoint
  sequence : Nat
  witness : List Bytes
  deriving Repr, DecidableEq

/-- A transaction. -/
structure Tx where
  version : Nat
  inputs : List Input
  outputs : List Output
  locktime : Nat
  deriving Repr, DecidableEq

/-- `new Input()`: null outpoint sentinel (all-zero hash, index 0xffffffff),
sequence 0xffffffff, empty witness.  Modelled from the spec: the Input value
object is an external file of the repository. -/
def Input.empty : Input :=
  ⟨⟨List.replicate 32 0, 0xffffffff⟩, 0xffffffff, []⟩

/-- Modelled from the spec: outpoint wire form, 32-byte hash then uint32
index (36 bytes). -/
def Outpoint.encode (o : Outpoint) : Bytes := o.hash ++ u32LE o.index

/-- Modelled from the spec: the base-region bytes of one input — outpoint
plus uint32 sequence (40 bytes for a 32-byte hash). -/
def Input.encodeBase (i : Input) : Bytes := i.prevout.encode ++ u32LE i.sequence

/-- Modelled from the spec: the witness-region bytes of one input — a
varint item count followed by each item as var-bytes. -/
def witnessEncode (w : List Bytes) : Bytes :=
  putVarint w.length ++ (w.map varBytes).flatten

/-- Witness `getVarSize`: size of the witness region of one input.
Modelled from the spec (Witness is an external file of the repository). -/
def witnessGetVarSize (w : List Bytes) : Nat :=
  sizeVarint w.length + (w.map (fun it => sizeVarint it.length + it.length)).sum

/-- Modelled from the spec: covenant wire form — type byte, varint item
count, var-bytes items. -/
def Covenant.encode (c : Covenant) : Bytes :=
  c.type % 256 :: putVarint c.items.length ++ (c.items.map varBytes).flatten

/-- Modelled from the spec: output wire form — uint64 value, serialized
address, covenant. -/
def Output.encode (o : Output) : Bytes :=
  u64LE o.value.toNat ++ o.address.enc ++ o.covenant.encode

/-- Output `getSize`: the byte size of the output's wire form. -/
def Output.getSize (o : Output) : Nat := o.encode.length

/-! ### Transaction codec and hash engine (tx.js) -/

/-- The pair returned by `getSizes`. -/
structure Sizes where
  base : Nat
  witness : Nat
  deriving Repr, DecidableEq

/-- consensus `WITNESS_SCALE_FACTOR` (per the spec, SCALE = 4). -/
def WITNESS_SCALE_FACTOR : Nat := 4

/-- tx.js `getSizes`: base = 4 (version) + varint size of the input count
+ 40 bytes per input + varint size of the output count + each output's
size + 4 (locktime); witness = sum of the inputs' witness var-sizes. -/
def Tx.getSizes (tx : Tx) : Sizes :=
  ⟨4 + sizeVarint tx.inputs.length + 40 * tx.inputs.length
    + sizeVarint tx.outputs.length + (tx.outputs.map Output.getSize).sum + 4,
   (tx.inputs.map (fun i => witnessGetVarSize i.witness)).sum⟩

/-- tx.js `getSize`: base + witness. -/
def Tx.getSize (tx : Tx) : Nat := tx.getSizes.base + tx.getSizes.witness

/-- tx.js `getBaseSize`: base only. -/
def Tx.getBaseSize (tx : Tx) : Nat := tx.getSizes.base

/-- tx.js `getWeight`: base * (SCALE - 1) + (base + witness). -/
def Tx.getWeight (tx : Tx) : Nat :=
  tx.getSizes.base * (WITNESS_SCALE_FACTOR - 1)
    + (tx.getSizes.base + tx.getSizes.witness)

/-- tx.js `getVirtualSize`: (weight + SCALE - 1) / SCALE, truncated. -/
def Tx.getVirtualSize (tx : Tx) : Nat :=
  (tx.getWeight + WITNESS_SCALE_FACTOR - 1) / WITNESS_SCALE_FACTOR

/-- tx.js `write`/`encode`: version, varint input count, per-input base
bytes, varint output count, outputs, locktime, then the witness region. -/
def Tx.encode (tx : Tx) : Bytes :=
  u32LE tx.version
    ++ putVarint tx.inputs.length
    ++ (tx.inputs.map Input.encodeBase).flatten
    ++ putVarint tx.outputs.length
    ++ (tx.outputs.map Output.encode).flatten
    ++ u32LE tx.locktime
    ++ (tx.inputs.map (fun i => witnessEncode i.witness)).flatten

/-- tx.js `hashes`: slices the full encoding into the base region and the
witness region, hashes each with BLAKE2b-256 and combines the two digests
with the two-child tree-node function `root`.  The source asserts
`raw.length === base + witness`; an assertion failure is modelled as
`none`. -/
def Tx.hashes (blake : Bytes → Bytes) (root : Bytes → Bytes → Bytes)
    (tx : Tx) : Option (Bytes × Bytes × Bytes) :=
  let s := tx.getSizes
  let raw := tx.encode
  if raw.length = s.base + s.witness then
    let ndata := raw.take s.base
    let wdata := (raw.drop s.base).take s.witness
    let h := blake ndata
    let wd := blake wdata
    some (h, wd, root h wd)
  else none

/-! ### Signature hash protocol (tx.js `signatureHash`) -/

-- Sighash type constants.  Modelled from the spec: the numeric values live
-- in the repository's script module (not part of the given sources); the
-- base mode occupies the low 5 bits, the modifier flags the high bits.
namespace hashType

def ALL : Nat := 0x01
def NONE : Nat := 0x02
def SINGLE : Nat := 0x03
def SINGLEREVERSE : Nat := 0x04
def NOINPUT : Nat := 0x40
def ANYONECANPAY : Nat := 0x80

end hashType

/-- The all-zero 32-byte hash (consensus `ZERO_HASH`). -/
def ZERO_HASH : Bytes := List.replicate 32 0

/-- The prevouts digest of `signatureHash`: BLAKE2b-256 of all inputs'
outpoints in order, or `ZERO_HASH` when ANYONECANPAY is set. -/
def prevoutsDigest (blake : Bytes → Bytes) (tx : Tx) (type : Nat) : Bytes :=
  if type &&& hashType.ANYONECANPAY ≠ 0 then ZERO_HASH
  else blake ((tx.inputs.map (fun i => i.prevout.encode)).flatten)

/-- The sequences digest of `signatureHash`: BLAKE2b-256 of all inputs'
sequence numbers, computed only when ANYONECANPAY is unset and the base
mode is none of SINGLE, SINGLEREVERSE, NONE; otherwise `ZERO_HASH`. -/
def sequencesDigest (blake : Bytes → Bytes) (tx : Tx) (type : Nat) : Bytes :=
  if type &&& hashType.ANYONECANPAY = 0
      ∧ type &&& 0x1f ≠ hashType.SINGLE
      ∧ type &&& 0x1f ≠ hashType.SINGLEREVERSE
      ∧ type &&& 0x1f ≠ hashType.NONE then
    blake ((tx.inputs.map (fun i => u32LE i.sequence)).flatten)
  else ZERO_HASH

/-- The outputs digest of `signatureHash`: all outputs for ALL mode; the
single output at `index` (SINGLE) or at `outputs.length - 1 - index`
(SINGLEREVERSE) when in range, else `ZERO_HASH`; `ZERO_HASH` for NONE. -/
def outputsDigest (blake : Bytes → Bytes) (tx : Tx) (index type : Nat) : Bytes :=
  if type &&& 0x1f ≠ hashType.SINGLE
      ∧ type &&& 0x1f ≠ hashType.SINGLEREVERSE
      ∧ type &&& 0x1f ≠ hashType.NONE then
    blake ((tx.outputs.map Output.encode).flatten)
  else if type &&& 0x1f = hashType.SINGLE then
    if h : index < tx.outputs.length then
      blake (tx.outputs.get ⟨index, h⟩).encode
    else ZERO_HASH
  else if type &&& 0x1f = hashType.SINGLEREVERSE then
    if h : index < tx.outputs.length then
      blake (tx.outputs.get ⟨tx.outputs.length - 1 - index, by omega⟩).encode
    else ZERO_HASH
  else ZERO_HASH

/-- tx.js `signatureHash`: the signed preimage, digested with BLAKE2b-256.
The entry assertion `index < inputs.length` is modelled as `none` on
failure.  When NOINPUT is set the signed input is replaced by an empty
input. -/
def signatureHash (blake : Bytes → Bytes) (tx : Tx) (index : Nat)
    (prev : Bytes) (value : Int) (type : Nat) : Option Bytes :=
  if h : index < tx.inputs.length then
    let input0 := tx.inputs.get ⟨index, h⟩
    let input := if type &&& hashType.NOINPUT ≠ 0 then Input.empty else input0
    some (blake
      (u32LE tx.version
        ++ prevoutsDigest blake tx type
        ++ sequencesDigest blake tx type
        ++ input.prevout.hash
        ++ u32LE input.prevout.index
        ++ varBytes prev
        ++ u64LE value.toNat
        ++ u32LE input.sequence
        ++ outputsDigest blake tx index type
        ++ u32LE tx.locktime
        ++ u32LE type))
  else none

/-! ### Wallet (index.js `HandshakeJS`) -/

/-- The wallet's external collaborators (index.js): the digest primitives,
secp256k1 signing, hierarchical key derivation from the wallet seed, the
wallet public key and its own address.  A derivation path is a list of
components, each a child index paired with its hardened flag. -/
structure Ctx where
  sha3 : Bytes → Bytes
  blake : Bytes → Bytes
  blake20 : Bytes → Bytes
  blakeMulti : List Bytes → Bytes
  sign : Bytes → Bytes
  derivePub : List (Nat × Bool) → Bytes
  publicKey : Bytes
  fromPubkeyhash : Bytes → Bytes
  selfAddress : Addr

/-- The argument of `hashName`: either a Buffer of raw bytes or a
JavaScript string. -/
inductive NameArg where
  | buf (b : Bytes)
  | str (s : JStr)

/-- `Buffer.from(name, 'ascii')` / `slab.write(..., 'ascii')`: each UTF-16
code unit is written as its low byte. -/
def asciiBytes (s : JStr) : Bytes := s.map (fun c => c % 256)

/-- index.js `hashName`: a Buffer argument is digested with SHA3-256 in
full; a string argument is written into a 63-byte slab as ASCII, the slab
is sliced to the number of bytes written, and the slice is digested. -/
def hashName (sha3 : Bytes → Bytes) : NameArg → Bytes
  | NameArg.buf b => sha3 b
  | NameArg.str s => sha3 ((asciiBytes s).take 63)

/-- The derivation index of `generateNonce`:
`((value * (1 / 0x100000000)) >>> 0) ^ (value >>> 0)) & 0x7fffffff`.
For an integer-valued 64-bit JavaScript number, `ToUint32` of the exact
scaling by `2^-32` is `(value / 2^32) % 2^32` and `value >>> 0` is
`value % 2^32`. -/
def nonceIndex (value : Nat) : Nat :=
  let hi := value / 4294967296 % 4294967296
  let lo := value % 4294967296
  (hi ^^^ lo) &&& 0x7fffffff

/-- The derivation path `m'/44'/5353'/0'/${index}` of `generateNonce`:
three hardened components then the non-hardened nonce index. -/
def noncePath (value : Nat) : List (Nat × Bool) :=
  [(44, true), (5353, true), (0, true), (nonceIndex value, false)]

/-- index.js `generateNonce`: derive the child public key at the nonce
path, then take the BLAKE2b-256 multi-input digest over the address hash,
the derived public key and the name hash, in that order. -/
def generateNonce (ctx : Ctx) (nameHash : Bytes) (address : Addr)
    (value : Nat) : Bytes :=
  ctx.blakeMulti [address.hash, ctx.derivePub (noncePath value), nameHash]

/-- A wallet UTXO record: previous transaction hash, output index, value. -/
structure Utxo where
  hash : Bytes
  index : Nat
  value : Int
  deriving Repr, DecidableEq

/-- `Output.fromScript(address, value)`: a plain output with a NONE
covenant. -/
def Output.fromScript (a : Addr) (value : Int) : Output :=
  ⟨value, a, ⟨types.NONE, []⟩⟩

/-- The input total `utxos.reduce((acc, cur) => acc + cur.value, 0)`. -/
def inputAmount (utxos : List Utxo) : Int :=
  utxos.foldl (fun acc u => acc + u.value) 0

/-- tx.js `signature`: the signature hash at sighash type ALL, signed with
secp256k1, with the type byte appended. -/
def txSignature (ctx : Ctx) (tx : Tx) (index : Nat) (prev : Bytes)
    (value : Int) : Bytes :=
  ctx.sign ((signatureHash ctx.blake tx index prev value hashType.ALL).getD [])
    ++ [hashType.ALL]

/-- index.js `generateTransaction`: one input per UTXO (outpoint =
(hash, index)), then each input is signed over the unsigned transaction
with the wallet's pay-to-pubkey-hash script (BLAKE2b-160 of the public
key) and that input's declared previous value, and its witness is set to
[signature, publicKey]. -/
def generateTransaction (ctx : Ctx) (utxos : List Utxo)
    (outputs : List Output) : Tx :=
  let inputs := utxos.map (fun u => Input.mk ⟨u.hash, u.index⟩ 0xffffffff [])
  let tx0 : Tx := ⟨0, inputs, outputs, 0⟩
  let script := ctx.fromPubkeyhash (ctx.blake20 ctx.publicKey)
  let signedInputs := tx0.inputs.enum.map (fun p =>
    let u := utxos.getD p.1 ⟨[], 0, 0⟩
    Input.mk p.2.prevout p.2.sequence
      [txSignature ctx tx0 p.1 script u.value, ctx.publicKey])
  ⟨tx0.version, signedInputs, tx0.outputs, tx0.locktime⟩

/-- index.js `openName`: no name validation; hashes the raw ASCII name
bytes (Buffer branch of `hashName`), builds a zero-value OPEN covenant
output with items [nameHash, uint32 0, raw name] and a change output of
the input total minus the fee, change first, then signs. -/
def openName (ctx : Ctx) (name : JStr) (utxos : List Utxo) (fee : Int)
    (changeAddress : Option Addr) : Except String Tx :=
  let rawName := asciiBytes name
  let nameHash := hashName ctx.sha3 (NameArg.buf rawName)
  let addr := ctx.selfAddress
  let output : Output :=
    ⟨0, addr, ⟨types.OPEN, [nameHash, u32LE 0, rawName]⟩⟩
  let changeAmount := inputAmount utxos - fee
  let outputs := [Output.fromScript (changeAddress.getD addr) changeAmount, output]
  Except.ok (generateTransaction ctx utxos outputs)

/-- index.js `bidName`: rejects a name that fails `verifyString` with the
error "Invalid name." before any other work; otherwise hashes the name,
derives the nonce and blind commitment, builds a BID covenant output of
value `lockup` with items [nameHash, uint32 start, raw name, blind] and a
change output of the input total minus fee minus `value`, covenant output
first, and signs. -/
def bidName (ctx : Ctx) (name : JStr) (value lockup start : Nat)
    (utxos : List Utxo) (fee : Int) (changeAddress : Option Addr) :
    Except String Tx :=
  if verifyString name = false then Except.error "Invalid name."
  else
    let rawName := asciiBytes name
    let nameHash := hashName ctx.sha3 (NameArg.buf rawName)
    let addr := ctx.selfAddress
    let nonce := generateNonce ctx nameHash addr value
    let blind := createBlind ctx.blake value nonce
    let output : Output :=
      ⟨(lockup : Int), addr,
        ⟨types.BID, [nameHash, u32LE start, rawName, blind]⟩⟩
    let changeAmount := inputAmount utxos - fee - (value : Int)
    let outputs := [output, Output.fromScript (changeAddress.getD addr) changeAmount]
    Except.ok (generateTransaction ctx utxos outputs)

/-! ### Specification-side predicates -/

/-- The specification's per-character rule for position `k` of a name of
length `len`: a digit, a lowercase letter, or a joiner (`-`/`_`) that is
neither the first nor the last character. -/
def nameCharOk (len k c : Nat) : Prop :=
  (48 ≤ c ∧ c ≤ 57) ∨ (97 ≤ c ∧ c ≤ 122) ∨
    ((c = 45 ∨ c = 95) ∧ k ≠ 0 ∧ k ≠ len - 1)

/-- The specification's description of an auction-eligible name: length in
[1,63], every character a digit, lowercase letter or interior joiner (all
of which are 7-bit ASCII), and the whole string not blacklisted. -/
def validName (s : JStr) : Prop :=
  1 ≤ s.length ∧ s.length ≤ 63 ∧
    (∀ k (h : k < s.length), nameCharOk s.length k s[k]) ∧
    s ∉ blacklist

instance validNameDecidable (s : JStr) : Decidable (validName s) := by
  unfold validName nameCharOk
  infer_instance

/-- Well-formedness of a transaction for the codec claims: every input's
previous-transaction hash is 32 bytes. -/
def Tx.wf (tx : Tx) : Prop :=
  ∀ i ∈ tx.inputs, i.prevout.hash.length = 32

instance txWfDecidable (tx : Tx) : Decidable (Tx.wf tx) := by
  unfold Tx.wf
  infer_instance

end HsWallet

namespace HsWallet

/-! ### Helper lemmas -/

lemma inputAmount_eq_sum_aux (l : List Utxo) :
    ∀ a : Int, l.foldl (fun acc u => acc + u.value) a = a + (l.map Utxo.value).sum := by
  induction l with
  | nil => intro a; simp
  | cons u t ih => intro a; simp [List.foldl_cons, ih, add_assoc]

lemma inputAmount_eq_sum (l : List Utxo) :
    inputAmount l = (l.map Utxo.value).sum := by
  have := inputAmount_eq_sum_aux l 0
  simpa [inputAmount] using this

lemma generateTransaction_outputs (ctx : Ctx) (utxos : List Utxo)
    (outputs : List Output) :
    (generateTransaction ctx utxos outputs).outputs = outputs := rfl

lemma length_u16LE (n : Nat) : (u16LE n).length = 2 := rfl

lemma length_u32LE (n : Nat) : (u32LE n).length = 4 := rfl

lemma length_u64LE (n : Nat) : (u64LE n).length = 8 := rfl

lemma length_putVarint (n : Nat) : (putVarint n).length = sizeVarint n := by
  unfold putVarint sizeVarint
  split_ifs <;> simp [u16LE, u32LE, u64LE]

lemma length_varBytes (b : Bytes) :
    (varBytes b).length = sizeVarint b.length + b.length := by
  simp [varBytes, length_putVarint]

lemma length_witnessEncode (w : List Bytes) :
    (witnessEncode w).length = witnessGetVarSize w := by
  unfold witnessEncode witnessGetVarSize
  rw [List.length_append, List.length_flatten, List.map_map, length_putVarint]
  congr 1
  apply congrArg
  apply List.map_congr_left
  intro a _
  simp [Function.comp, length_varBytes]

lemma length_inputEncodeBase (i : Input) (h : i.prevout.hash.length = 32) :
    i.encodeBase.length = 40 := by
  simp [Input.encodeBase, Outpoint.encode, h, u32LE]

lemma length_inputs_flatten (l : List Input)
    (h : ∀ i ∈ l, i.prevout.hash.length = 32) :
    ((l.map Input.encodeBase).flatten).length = 40 * l.length := by
  induction l with
  | nil => simp
  | cons a t ih =>
    have ha : a.encodeBase.length = 40 :=
      length_inputEncodeBase a (h a (List.mem_cons_self a t))
    have ht := ih (fun i hi => h i (List.mem_cons_of_mem a hi))
    simp [ha, ht]
    ring

lemma length_outputs_flatten (l : List Output) :
    ((l.map Output.encode).flatten).length = (l.map Output.getSize).sum := by
  rw [List.length_flatten, List.map_map]
  rfl

lemma length_witnessRegion_flatten (l : List Input) :
    ((l.map (fun i => witnessEncode i.witness)).flatten).length
      = (l.map (fun i => witnessGetVarSize i.witness)).sum := by
  rw [List.length_flatten, List.map_map]
  apply congrArg
  apply List.map_congr_left
  intro a _
  simp [Function.comp, length_witnessEncode]

lemma mask_zero_of_lt_128 : ∀ c, c < 128 → c &&& 0xff80 = 0 := by decide

lemma mask_ne_zero_of_ge_128 {c : Nat} (h1 : 128 ≤ c) (h2 : c < 65536) :
    c &&& 0xff80 ≠ 0 := by
  have h7 : 2 ^ 7 ≤ c := by
    norm_num
    omega
  obtain ⟨i, hi7, hbit⟩ := Nat.ge_two_pow_implies_high_bit_true h7
  have hi16 : i < 16 := by
    by_contra hge
    push_neg at hge
    have h16 : c < 2 ^ 16 := by norm_num; omega
    have hlt : c < 2 ^ i :=
      lt_of_lt_of_le h16 (Nat.pow_le_pow_right (by norm_num) hge)
    rw [Nat.testBit_lt_two_pow hlt] at hbit
    exact Bool.false_ne_true hbit
  intro h0
  have hm : (0xff80 : Nat).testBit i = true := by
    interval_cases i <;> decide
  have hand := Nat.testBit_and c 0xff80 i
  rw [h0, hbit, hm] at hand
  simp at hand

lemma charset_facts : ∀ c, c < 128 →
    ((CHARSET.getD c 0 = 1 ↔ (48 ≤ c ∧ c ≤ 57))
      ∧ (CHARSET.getD c 0 = 3 ↔ (97 ≤ c ∧ c ≤ 122))
      ∧ (CHARSET.getD c 0 = 4 ↔ (c = 45 ∨ c = 95))
      ∧ CHARSET.getD c 0 < 5) := by decide

lemma charStep_iff (len i c : Nat) (hc : c < 65536) :
    charStep len i c = true ↔ nameCharOk len i c := by
  rcases Nat.lt_or_ge c 128 with hlt | hge
  · have hmask : c &&& 0xff80 = 0 := mask_zero_of_lt_128 c hlt
    have hc' : c < CHARSET.length := by
      have hl : CHARSET.length = 128 := rfl
      omega
    have h1 : CHARSET[c]? = some (CHARSET.getD c 0) := by
      rw [List.getD_eq_getElem?_getD, List.getElem?_eq_getElem hc']
      rfl
    obtain ⟨f1, f3, f4, f5⟩ := charset_facts c hlt
    have hcases : CHARSET.getD c 0 = 0 ∨ CHARSET.getD c 0 = 1
        ∨ CHARSET.getD c 0 = 2 ∨ CHARSET.getD c 0 = 3
        ∨ CHARSET.getD c 0 = 4 := by omega
    unfold nameCharOk
    rcases hcases with h | h | h | h | h <;>
      rw [h] at h1 f1 f3 f4 <;>
        simp only [charStep, hmask, h1] <;> simp_all <;> omega
  · have hmask := mask_ne_zero_of_ge_128 hge hc
    unfold charStep nameCharOk
    rw [if_pos hmask]
    constructor
    · intro hh
      exact absurd hh (by simp)
    · rintro (⟨h48, h57⟩ | ⟨h97, h122⟩ | ⟨hj, h0', hl'⟩)
      · omega
      · omega
      · rcases hj with h | h <;> omega

lemma checkGo_iff (len : Nat) (t : List Nat) :
    ∀ i, (checkGo len i t = true
      ↔ ∀ k c, t[k]? = some c → charStep len (i + k) c = true) := by
  induction t with
  | nil =>
    intro i
    simp [checkGo]
  | cons ch rest ih =>
    intro i
    rw [checkGo, Bool.and_eq_true]
    constructor
    · rintro ⟨hstep, hrest⟩ k c hk
      cases k with
      | zero =>
        simp only [List.getElem?_cons_zero, Option.some.injEq] at hk
        subst hk
        simpa using hstep
      | succ k =>
        have hk' : rest[k]? = some c := by simpa using hk
        have := (ih (i + 1)).1 hrest k c hk'
        have harith : i + 1 + k = i + (k + 1) := by omega
        rwa [harith] at this
    · intro hall
      refine ⟨?_, (ih (i + 1)).2 ?_⟩
      · have := hall 0 ch (by simp)
        simpa using this
      · intro k c hk
        have := hall (k + 1) c (by simpa using hk)
        have harith : i + (k + 1) = i + 1 + k := by omega
        rwa [harith] at this

lemma verifyString_eq_true_iff (s : JStr) :
    verifyString s = true ↔
      (s.length ≠ 0 ∧ s.length ≤ 63 ∧ checkGo s.length 0 s = true
        ∧ s ∉ blacklist) := by
  unfold verifyString MAX_NAME_SIZE
  split_ifs with h0 h63 hchk hbl <;> simp_all

/-! ### Claim theorems -/

/-- C9: when `hashName` is given a Buffer it digests the entire buffer with
no truncation (in particular for buffers longer than 63 bytes); a string
argument is ASCII-encoded into the 63-byte slab, so at most its first 63
characters are digested — a string of 63 or fewer characters hashes in
full, a longer one is cut to exactly 63 bytes. -/
theorem hashName_buffer_untruncated (sha3 : Bytes → Bytes) (b : Bytes)
    (s t : JStr) (hs : s.length ≤ 63) (ht : 63 < t.length) :
    hashName sha3 (NameArg.buf b) = sha3 b
    ∧ hashName sha3 (NameArg.str s) = sha3 (asciiBytes s)
    ∧ hashName sha3 (NameArg.str t) = sha3 ((asciiBytes t).take 63)
    ∧ ((asciiBytes t).take 63).length < (asciiBytes t).length := by
  refine ⟨rfl, ?_, rfl, ?_⟩
  · have : (asciiBytes s).take 63 = asciiBytes s := by
      apply List.take_of_length_le
      simpa [asciiBytes] using hs
    simp [hashName, this]
  · have hlt : (asciiBytes t).length = t.length := by simp [asciiBytes]
    simp [hlt]
    omega

theorem hashName_buffer_untruncated_witness :
    ((List.replicate 10 97 : JStr).length ≤ 63
      ∧ 63 < (List.replicate 100 97 : JStr).length)
    ∧ (hashName List.reverse (NameArg.buf (List.replicate 100 7))
          = List.reverse (List.replicate 100 7)
        ∧ hashName List.reverse (NameArg.str (List.replicate 10 97))
          = List.reverse (asciiBytes (List.replicate 10 97))
        ∧ hashName List.reverse (NameArg.str (List.replicate 100 97))
          = List.reverse ((asciiBytes (List.replicate 100 97)).take 63)
        ∧ ((asciiBytes (List.replicate 100 97)).take 63).length
            < (asciiBytes (List.replicate 100 97)).length) :=
  ⟨by decide,
    hashName_buffer_untruncated List.reverse (List.replicate 100 7)
      (List.replicate 10 97) (List.replicate 100 97) (by decide) (by decide)⟩

/-- C7: for a 64-bit value, the derivation path of `generateNonce` ends in
the non-hardened component `((hi32 value) XOR (lo32 value)) & 0x7fffffff`
(all earlier components hardened), the nonce is the BLAKE2b-256
multi-input digest over address hash, derived public key and name hash in
that order, and the computation is deterministic in its arguments. -/
theorem generateNonce_path_and_digest (ctx : Ctx) (nameHash : Bytes)
    (addr : Addr) (value : Nat) (h : value < 18446744073709551616) :
    (noncePath value).getLast?
      = some (((value / 4294967296) ^^^ (value % 4294967296)) &&& 0x7fffffff, false)
    ∧ (noncePath value).dropLast = [(44, true), (5353, true), (0, true)]
    ∧ generateNonce ctx nameHash addr value
        = ctx.blakeMulti [addr.hash, ctx.derivePub (noncePath value), nameHash]
    ∧ generateNonce ctx nameHash addr value = generateNonce ctx nameHash addr value := by
  refine ⟨?_, rfl, rfl, rfl⟩
  have hd : value / 4294967296 % 4294967296 = value / 4294967296 := by
    apply Nat.mod_eq_of_lt
    omega
  simp [noncePath, nonceIndex, hd]

theorem generateNonce_path_and_digest_witness :
    (12345678901 : Nat) < 18446744073709551616
    ∧ ((noncePath 12345678901).getLast?
        = some (((12345678901 / 4294967296) ^^^ (12345678901 % 4294967296)) &&& 0x7fffffff, false)
      ∧ (noncePath 12345678901).dropLast = [(44, true), (5353, true), (0, true)]
      ∧ generateNonce ⟨id, id, id, List.flatten, id, fun _ => [9], [1], id, ⟨[2], [3]⟩⟩
            [4] ⟨[2], [3]⟩ 12345678901
          = List.flatten [[2], [9], [4]]
      ∧ generateNonce ⟨id, id, id, List.flatten, id, fun _ => [9], [1], id, ⟨[2], [3]⟩⟩
            [4] ⟨[2], [3]⟩ 12345678901
          = generateNonce ⟨id, id, id, List.flatten, id, fun _ => [9], [1], id, ⟨[2], [3]⟩⟩
              [4] ⟨[2], [3]⟩ 12345678901) :=
  ⟨by decide,
    generateNonce_path_and_digest
      ⟨id, id, id, List.flatten, id, fun _ => [9], [1], id, ⟨[2], [3]⟩⟩
      [4] ⟨[2], [3]⟩ 12345678901 (by decide)⟩

/-- C6: a name rejected by `verifyString` makes `bidName` fail with the
error "Invalid name." immediately: the result is the error value, produced
before any hashing, nonce derivation, blinding or output construction, and
(the embedding being pure) without mutating any shared state. -/
theorem bidName_invalid_name_error (ctx : Ctx) (name : JStr)
    (value lockup start : Nat) (utxos : List Utxo) (fee : Int)
    (changeAddress : Option Addr) (h : verifyString name = false) :
    bidName ctx name value lockup start utxos fee changeAddress
      = Except.error "Invalid name." := by
  unfold bidName
  rw [if_pos h]

/-- C8: `openName` performs no name validation: for every string — in
particular those `verifyString` rejects — it returns a signed transaction
whose outputs are the change output (input total minus fee) followed by
the zero-value OPEN covenant output carrying the raw name bytes, and never
an invalid-name error. -/
theorem openName_no_validation (ctx : Ctx) (name : JStr) (utxos : List Utxo)
    (fee : Int) (changeAddress : Option Addr) :
    (openName ctx name utxos fee changeAddress).map Tx.outputs
      = Except.ok
          [Output.fromScript (changeAddress.getD ctx.selfAddress)
            (inputAmount utxos - fee),
           ⟨0, ctx.selfAddress,
             ⟨types.OPEN,
               [hashName ctx.sha3 (NameArg.buf (asciiBytes name)), u32LE 0,
                asciiBytes name]⟩⟩] := rfl

/-- C1: for a name accepted by `verifyString`, the transaction built by
`bidName` has exactly two outputs: first the BID covenant output of value
`lockup` whose items are, in order, the name hash, the uint32 start
height, the raw ASCII name bytes and the blind commitment; then the change
output of value (sum of the UTXO values) − fee − `value` (the declared bid
value, not `lockup`). -/
theorem bidName_two_outputs (ctx : Ctx) (name : JStr)
    (value lockup start : Nat) (utxos : List Utxo) (fee : Int)
    (changeAddress : Option Addr) (h : verifyString name = true) :
    (bidName ctx name value lockup start utxos fee changeAddress).map Tx.outputs
      = Except.ok
          [⟨(lockup : Int), ctx.selfAddress,
             ⟨types.BID,
               [hashName ctx.sha3 (NameArg.buf (asciiBytes name)),
                u32LE start, asciiBytes name,
                createBlind ctx.blake value
                  (generateNonce ctx
                    (hashName ctx.sha3 (NameArg.buf (asciiBytes name)))
                    ctx.selfAddress value)]⟩⟩,
           Output.fromScript (changeAddress.getD ctx.selfAddress)
             ((utxos.map Utxo.value).sum - fee - (value : Int))]
    ∧ inputAmount utxos = (utxos.map Utxo.value).sum := by
  refine ⟨?_, inputAmount_eq_sum utxos⟩
  unfold bidName
  rw [if_neg (by simp [h]), inputAmount_eq_sum]
  rfl

/-- C10: `openName` places the change output at index 0 and the OPEN
covenant output at index 1, while `bidName` places the BID covenant output
at index 0 ahead of the change output (covenant type NONE). -/
theorem builder_output_order (ctx : Ctx) (nameO nameB : JStr)
    (value lockup start : Nat) (utxos : List Utxo) (fee : Int)
    (changeAddress : Option Addr) (h : verifyString nameB = true) :
    (openName ctx nameO utxos fee changeAddress).map
        (fun t => t.outputs.map (fun o => o.covenant.type))
      = Except.ok [types.NONE, types.OPEN]
    ∧ (bidName ctx nameB value lockup start utxos fee changeAddress).map
        (fun t => t.outputs.map (fun o => o.covenant.type))
      = Except.ok [types.BID, types.NONE] := by
  refine ⟨rfl, ?_⟩
  unfold bidName
  rw [if_neg (by simp [h])]
  rfl

/-- C4: `getSize` is base plus witness bytes, `getWeight` is
base * (4 − 1) + (base + witness), `getVirtualSize` is the ceiling of
weight / 4, and a transaction with zero witness bytes has weight exactly
4 * base. -/
theorem tx_size_weight_vsize (tx : Tx) :
    tx.getSize = tx.getBaseSize + tx.getSizes.witness
    ∧ tx.getWeight
        = tx.getBaseSize * (4 - 1) + (tx.getBaseSize + tx.getSizes.witness)
    ∧ tx.getVirtualSize
        = tx.getWeight / 4 + (if tx.getWeight % 4 = 0 then 0 else 1)
    ∧ (tx.getSizes.witness = 0 → tx.getWeight = 4 * tx.getBaseSize) := by
  refine ⟨rfl, rfl, ?_, ?_⟩
  · unfold Tx.getVirtualSize WITNESS_SCALE_FACTOR
    by_cases hmod : tx.getWeight % 4 = 0 <;> simp [hmod] <;> omega
  · intro h0
    unfold Tx.getWeight Tx.getBaseSize WITNESS_SCALE_FACTOR
    omega

theorem tx_size_weight_vsize_witness :
    (Tx.mk 0 [Input.mk ⟨List.replicate 32 0, 0⟩ 0 [[1]]] [] 0).getSize
        = (Tx.mk 0 [Input.mk ⟨List.replicate 32 0, 0⟩ 0 [[1]]] [] 0).getBaseSize
          + (Tx.mk 0 [Input.mk ⟨List.replicate 32 0, 0⟩ 0 [[1]]] [] 0).getSizes.witness
    ∧ (Tx.mk 0 [Input.mk ⟨List.replicate 32 0, 0⟩ 0 [[1]]] [] 0).getWeight
        = (Tx.mk 0 [Input.mk ⟨List.replicate 32 0, 0⟩ 0 [[1]]] [] 0).getBaseSize * (4 - 1)
          + ((Tx.mk 0 [Input.mk ⟨List.replicate 32 0, 0⟩ 0 [[1]]] [] 0).getBaseSize
            + (Tx.mk 0 [Input.mk ⟨List.replicate 32 0, 0⟩ 0 [[1]]] [] 0).getSizes.witness)
    ∧ (Tx.mk 0 [Input.mk ⟨List.replicate 32 0, 0⟩ 0 [[1]]] [] 0).getVirtualSize
        = (Tx.mk 0 [Input.mk ⟨List.replicate 32 0, 0⟩ 0 [[1]]] [] 0).getWeight / 4
          + (if (Tx.mk 0 [Input.mk ⟨List.replicate 32 0, 0⟩ 0 [[1]]] [] 0).getWeight % 4 = 0
              then 0 else 1)
    ∧ ((Tx.mk 0 [Input.mk ⟨List.replicate 32 0, 0⟩ 0 [[1]]] [] 0).getSizes.witness = 0
        → (Tx.mk 0 [Input.mk ⟨List.replicate 32 0, 0⟩ 0 [[1]]] [] 0).getWeight
          = 4 * (Tx.mk 0 [Input.mk ⟨List.replicate 32 0, 0⟩ 0 [[1]]] [] 0).getBaseSize) :=
  tx_size_weight_vsize (Tx.mk 0 [Input.mk ⟨List.replicate 32 0, 0⟩ 0 [[1]]] [] 0)

theorem bidName_invalid_name_error_witness :
    verifyString [65, 66, 67] = false
    ∧ bidName ⟨id, id, id, List.flatten, id, fun _ => [9], [1], id, ⟨[2], [3]⟩⟩
        [65, 66, 67] 1 2 3 [] 0 none = Except.error "Invalid name." :=
  ⟨by decide,
    bidName_invalid_name_error
      ⟨id, id, id, List.flatten, id, fun _ => [9], [1], id, ⟨[2], [3]⟩⟩
      [65, 66, 67] 1 2 3 [] 0 none (by decide)⟩

theorem bidName_two_outputs_witness :
    verifyString [119, 108, 116, 120] = true
    ∧ ((bidName ⟨id, id, id, List.flatten, id, fun _ => [9], [1], id, ⟨[2], [3]⟩⟩
          [119, 108, 116, 120] 100 200 7 [⟨[5], 0, 1000⟩] 10 none).map Tx.outputs
        = Except.ok
            [⟨(200 : Int), ⟨[2], [3]⟩,
               ⟨types.BID,
                 [hashName id (NameArg.buf (asciiBytes [119, 108, 116, 120])),
                  u32LE 7, asciiBytes [119, 108, 116, 120],
                  createBlind id 100
                    (generateNonce
                      ⟨id, id, id, List.flatten, id, fun _ => [9], [1], id, ⟨[2], [3]⟩⟩
                      (hashName id (NameArg.buf (asciiBytes [119, 108, 116, 120])))
                      ⟨[2], [3]⟩ 100)]⟩⟩,
             Output.fromScript ((none : Option Addr).getD ⟨[2], [3]⟩)
               ((([⟨[5], 0, 1000⟩] : List Utxo).map Utxo.value).sum - 10 - (100 : Int))]
      ∧ inputAmount [⟨[5], 0, 1000⟩]
          = (([⟨[5], 0, 1000⟩] : List Utxo).map Utxo.value).sum) :=
  ⟨by decide,
    bidName_two_outputs
      ⟨id, id, id, List.flatten, id, fun _ => [9], [1], id, ⟨[2], [3]⟩⟩
      [119, 108, 116, 120] 100 200 7 [⟨[5], 0, 1000⟩] 10 none (by decide)⟩

theorem builder_output_order_witness :
    verifyString [119, 108, 116, 120] = true
    ∧ ((openName ⟨id, id, id, List.flatten, id, fun _ => [9], [1], id, ⟨[2], [3]⟩⟩
          [116, 101, 115, 116] [⟨[5], 0, 1000⟩] 10 none).map
            (fun t => t.outputs.map (fun o => o.covenant.type))
        = Except.ok [types.NONE, types.OPEN]
      ∧ (bidName ⟨id, id, id, List.flatten, id, fun _ => [9], [1], id, ⟨[2], [3]⟩⟩
          [119, 108, 116, 120] 100 200 7 [⟨[5], 0, 1000⟩] 10 none).map
            (fun t => t.outputs.map (fun o => o.covenant.type))
        = Except.ok [types.BID, types.NONE]) :=
  ⟨by decide,
    builder_output_order
      ⟨id, id, id, List.flatten, id, fun _ => [9], [1], id, ⟨[2], [3]⟩⟩
      [116, 101, 115, 116] [119, 108, 116, 120] 100 200 7 [⟨[5], 0, 1000⟩] 10 none
      (by decide)⟩

/-- C3: in `signatureHash` the sequences digest is the all-zero hash
exactly when ANYONECANPAY is set or the base mode (low 5 bits) is SINGLE,
SINGLEREVERSE or NONE — and otherwise is the digest of all sequence
numbers; in SINGLE mode an index at or beyond the output count, and in
SINGLEREVERSE mode an out-of-range mirrored index `outputs.length − 1 −
index`, degrade to the all-zero outputs digest; and for any in-range input
index the function returns a digest rather than failing. -/
theorem signatureHash_zero_digests (blake : Bytes → Bytes) (tx : Tx)
    (index : Nat) (prev : Bytes) (value : Int) (type : Nat)
    (h : index < tx.inputs.length) :
    (sequencesDigest blake tx type
      = if type &&& hashType.ANYONECANPAY ≠ 0
            ∨ type &&& 0x1f = hashType.SINGLE
            ∨ type &&& 0x1f = hashType.SINGLEREVERSE
            ∨ type &&& 0x1f = hashType.NONE
        then ZERO_HASH
        else blake ((tx.inputs.map (fun i => u32LE i.sequence)).flatten))
    ∧ (type &&& 0x1f = hashType.SINGLE → tx.outputs.length ≤ index →
        outputsDigest blake tx index type = ZERO_HASH)
    ∧ (type &&& 0x1f = hashType.SINGLEREVERSE →
        ((tx.outputs.length : Int) - 1 - (index : Int) < 0
          ∨ (tx.outputs.length : Int) ≤ (tx.outputs.length : Int) - 1 - (index : Int)) →
        outputsDigest blake tx index type = ZERO_HASH)
    ∧ (signatureHash blake tx index prev value type).isSome = true := by
  refine ⟨?_, ?_, ?_, ?_⟩
  · unfold sequencesDigest
    by_cases hA : type &&& hashType.ANYONECANPAY = 0 <;>
      by_cases hS : type &&& 0x1f = hashType.SINGLE <;>
        by_cases hR : type &&& 0x1f = hashType.SINGLEREVERSE <;>
          by_cases hN : type &&& 0x1f = hashType.NONE <;>
            simp [hA, hS, hR, hN]
  · intro hS hout
    unfold outputsDigest
    rw [hS]
    have hnot : ¬ index < tx.outputs.length := by omega
    simp [hashType.SINGLE, hashType.SINGLEREVERSE, hashType.NONE, hnot]
  · intro hR hout
    unfold outputsDigest
    rw [hR]
    have hnot : ¬ index < tx.outputs.length := by omega
    simp [hashType.SINGLE, hashType.SINGLEREVERSE, hashType.NONE, hnot]
  · unfold signatureHash
    rw [dif_pos h]
    rfl

theorem signatureHash_zero_digests_witness :
    0 < (Tx.mk 0 [Input.mk ⟨List.replicate 32 1, 2⟩ 5 []] [] 9).inputs.length
    ∧ ((sequencesDigest id (Tx.mk 0 [Input.mk ⟨List.replicate 32 1, 2⟩ 5 []] [] 9) 3
        = if (3 : Nat) &&& hashType.ANYONECANPAY ≠ 0
              ∨ (3 : Nat) &&& 0x1f = hashType.SINGLE
              ∨ (3 : Nat) &&& 0x1f = hashType.SINGLEREVERSE
              ∨ (3 : Nat) &&& 0x1f = hashType.NONE
          then ZERO_HASH
          else id (((Tx.mk 0 [Input.mk ⟨List.replicate 32 1, 2⟩ 5 []] [] 9).inputs.map
            (fun i => u32LE i.sequence)).flatten))
      ∧ ((3 : Nat) &&& 0x1f = hashType.SINGLE →
          (Tx.mk 0 [Input.mk ⟨List.replicate 32 1, 2⟩ 5 []] [] 9).outputs.length ≤ 0 →
          outputsDigest id (Tx.mk 0 [Input.mk ⟨List.replicate 32 1, 2⟩ 5 []] [] 9) 0 3
            = ZERO_HASH)
      ∧ ((3 : Nat) &&& 0x1f = hashType.SINGLEREVERSE →
          (((Tx.mk 0 [Input.mk ⟨List.replicate 32 1, 2⟩ 5 []] [] 9).outputs.length : Int)
              - 1 - ((0 : Nat) : Int) < 0
            ∨ (((Tx.mk 0 [Input.mk ⟨List.replicate 32 1, 2⟩ 5 []] [] 9).outputs.length : Int)
              ≤ ((Tx.mk 0 [Input.mk ⟨List.replicate 32 1, 2⟩ 5 []] [] 9).outputs.length : Int)
                - 1 - ((0 : Nat) : Int))) →
          outputsDigest id (Tx.mk 0 [Input.mk ⟨List.replicate 32 1, 2⟩ 5 []] [] 9) 0 3
            = ZERO_HASH)
      ∧ (signatureHash id (Tx.mk 0 [Input.mk ⟨List.replicate 32 1, 2⟩ 5 []] [] 9)
          0 [7] 11 3).isSome = true) :=
  ⟨by decide,
    signatureHash_zero_digests id
      (Tx.mk 0 [Input.mk ⟨List.replicate 32 1, 2⟩ 5 []] [] 9) 0 [7] 11 3 (by decide)⟩

/-- C5: for every well-formed transaction (32-byte previous-transaction
hashes) the encoded byte image has length base + witness as returned by
`getSizes`, so the consistency assertion in `hashes` holds and it returns
the three digests: the txid over exactly the first base bytes of the
encoding, the witness-data hash over the remaining witness bytes, and
their tree-node combination. -/
theorem tx_encode_length_and_hashes (blake : Bytes → Bytes)
    (root : Bytes → Bytes → Bytes) (tx : Tx) (hwf : Tx.wf tx) :
    tx.encode.length = tx.getSizes.base + tx.getSizes.witness
    ∧ tx.hashes blake root
        = some (blake (tx.encode.take tx.getSizes.base),
            blake (tx.encode.drop tx.getSizes.base),
            root (blake (tx.encode.take tx.getSizes.base))
              (blake (tx.encode.drop tx.getSizes.base))) := by
  have hlen : tx.encode.length = tx.getSizes.base + tx.getSizes.witness := by
    unfold Tx.encode Tx.getSizes
    simp only [List.length_append, length_u32LE, length_putVarint,
      length_inputs_flatten tx.inputs hwf, length_outputs_flatten,
      length_witnessRegion_flatten]
  refine ⟨hlen, ?_⟩
  have hdroplen : (tx.encode.drop tx.getSizes.base).length = tx.getSizes.witness := by
    rw [List.length_drop, hlen]
    omega
  have htake : (tx.encode.drop tx.getSizes.base).take tx.getSizes.witness
      = tx.encode.drop tx.getSizes.base := by
    rw [← hdroplen, List.take_length]
  unfold Tx.hashes
  rw [if_pos hlen, htake]

theorem tx_encode_length_and_hashes_witness :
    Tx.wf (Tx.mk 0 [Input.mk ⟨List.replicate 32 1, 2⟩ 5 [[6]]]
        [⟨7, ⟨[8], [9]⟩, ⟨2, [[1]]⟩⟩] 11)
    ∧ ((Tx.mk 0 [Input.mk ⟨List.replicate 32 1, 2⟩ 5 [[6]]]
          [⟨7, ⟨[8], [9]⟩, ⟨2, [[1]]⟩⟩] 11).encode.length
        = (Tx.mk 0 [Input.mk ⟨List.replicate 32 1, 2⟩ 5 [[6]]]
            [⟨7, ⟨[8], [9]⟩, ⟨2, [[1]]⟩⟩] 11).getSizes.base
          + (Tx.mk 0 [Input.mk ⟨List.replicate 32 1, 2⟩ 5 [[6]]]
              [⟨7, ⟨[8], [9]⟩, ⟨2, [[1]]⟩⟩] 11).getSizes.witness
      ∧ (Tx.mk 0 [Input.mk ⟨List.replicate 32 1, 2⟩ 5 [[6]]]
            [⟨7, ⟨[8], [9]⟩, ⟨2, [[1]]⟩⟩] 11).hashes List.reverse
            (fun a b => a ++ b)
          = some
              (List.reverse ((Tx.mk 0 [Input.mk ⟨List.replicate 32 1, 2⟩ 5 [[6]]]
                  [⟨7, ⟨[8], [9]⟩, ⟨2, [[1]]⟩⟩] 11).encode.take
                  (Tx.mk 0 [Input.mk ⟨List.replicate 32 1, 2⟩ 5 [[6]]]
                    [⟨7, ⟨[8], [9]⟩, ⟨2, [[1]]⟩⟩] 11).getSizes.base),
               List.reverse ((Tx.mk 0 [Input.mk ⟨List.replicate 32 1, 2⟩ 5 [[6]]]
                  [⟨7, ⟨[8], [9]⟩, ⟨2, [[1]]⟩⟩] 11).encode.drop
                  (Tx.mk 0 [Input.mk ⟨List.replicate 32 1, 2⟩ 5 [[6]]]
                    [⟨7, ⟨[8], [9]⟩, ⟨2, [[1]]⟩⟩] 11).getSizes.base),
               List.reverse ((Tx.mk 0 [Input.mk ⟨List.replicate 32 1, 2⟩ 5 [[6]]]
                  [⟨7, ⟨[8], [9]⟩, ⟨2, [[1]]⟩⟩] 11).encode.take
                  (Tx.mk 0 [Input.mk ⟨List.replicate 32 1, 2⟩ 5 [[6]]]
                    [⟨7, ⟨[8], [9]⟩, ⟨2, [[1]]⟩⟩] 11).getSizes.base)
                ++ List.reverse ((Tx.mk 0 [Input.mk ⟨List.replicate 32 1, 2⟩ 5 [[6]]]
                  [⟨7, ⟨[8], [9]⟩, ⟨2, [[1]]⟩⟩] 11).encode.drop
                  (Tx.mk 0 [Input.mk ⟨List.replicate 32 1, 2⟩ 5 [[6]]]
                    [⟨7, ⟨[8], [9]⟩, ⟨2, [[1]]⟩⟩] 11).getSizes.base))) :=
  ⟨by decide,
    tx_encode_length_and_hashes List.reverse (fun a b => a ++ b)
      (Tx.mk 0 [Input.mk ⟨List.replicate 32 1, 2⟩ 5 [[6]]]
        [⟨7, ⟨[8], [9]⟩, ⟨2, [[1]]⟩⟩] 11) (by decide)⟩

/-- C2: for every string (a list of UTF-16 code units), `verifyString`
returns true iff the length is between 1 and 63, every character is a
7-bit ASCII digit, lowercase letter, `-` or `_` (any code unit with bit
0x80 or above set, any uppercase letter, control character, symbol or
space is rejected), no joiner appears as the first or last character, and
the string is not one of the five blacklisted names. -/
theorem verifyString_iff_validName (s : JStr) (hs : ∀ c ∈ s, c < 65536) :
    verifyString s = true ↔ validName s := by
  rw [verifyString_eq_true_iff]
  unfold validName
  constructor
  · rintro ⟨h0, h63, hchk, hbl⟩
    refine ⟨by omega, h63, ?_, hbl⟩
    intro k hk
    have hsome : s[k]? = some s[k] := List.getElem?_eq_getElem hk
    have hck := (checkGo_iff s.length s 0).1 hchk k s[k] hsome
    rw [Nat.zero_add] at hck
    exact (charStep_iff s.length k s[k] (hs s[k] (List.getElem_mem hk))).1 hck
  · rintro ⟨h1, h63, hchars, hbl⟩
    refine ⟨by omega, h63, ?_, hbl⟩
    apply (checkGo_iff s.length s 0).2
    intro k c hk
    rw [List.getElem?_eq_some] at hk
    obtain ⟨hklt, hkeq⟩ := hk
    rw [Nat.zero_add]
    have hmem : c < 65536 := hs c (hkeq ▸ List.getElem_mem hklt)
    exact (charStep_iff s.length k c hmem).2 (hkeq ▸ hchars k hklt)

theorem verifyString_iff_validName_witness :
    (∀ c ∈ ([119, 108, 116, 120] : JStr), c < 65536)
    ∧ (verifyString [119, 108, 116, 120] = true
        ↔ validName [119, 108, 116, 120]) :=
  ⟨by decide, verifyString_iff_validName [119, 108, 116, 120] (by decide)⟩

end HsWallet

